import Mathlib

/-!
Shallow embedding of `src/index.js` of the fama logging library.

Modelling conventions:
* File contents, paths, aliases, behaviours and appended text are `List Char`
  (abbreviated `Str`).  JavaScript string `.length` and the byte size reported
  by `fs.statSync().size` are both modelled as the list length (the source
  itself conflates character counts with byte counts, cf. spec section 9).
* The filesystem is an association list from path to content.  The source
  resolves `projectDir + file` and the bare relative `file` to the same file
  (it is written for Windows, `projectDir = process.cwd() + '\\'`); the model
  therefore keys the filesystem by the relative path string and `projectDir`
  appears only inside the error message text, exactly as in the source.
* Console output (`process.stdout` writes made through `warn` / `error` /
  `info`) is modelled as a trace of `Msg` values accumulated in the state.
* `fs.writeFileSync(file)` in `addLog` is called without the mandatory `data`
  argument; on Node.js >= 14 this throws `ERR_INVALID_ARG_TYPE`, which the
  surrounding `try` catches.  The model reflects that: the branch for a
  missing file reports the error and registers nothing.  (On Node < 14 the
  call instead coerced `undefined` to the 9-byte string "undefined"; under
  neither semantics is an empty file created.)
* The `rewrite` rotation consumes the file through a read stream; the chunk
  partition delivered by the stream's data events is an explicit argument
  (`chunks`).  A claim about a rotation over actual content `c` carries the
  hypothesis that the chunks join to `c`.  The net effect of the close
  handler (unlink original, hard-link temp, unlink temp, write `text`) is
  that the original path holds the trimmed content followed by `text` and the
  temp file is gone; the model records exactly that final state.
-/

namespace Fama

abbrev Str := List Char

/-- One registry entry, mirroring the `LogFile` typedef of the source. -/
structure LogFile where
  path : Str
  «alias» : Str
  length : Nat
  maxLength : Nat
  behaviour : Str
deriving DecidableEq

/-- One console message written through the severity-tagged sinks. -/
inductive Msg where
  | debug : Str → Msg
  | info : Str → Msg
  | warn : Str → Msg
  | error : Str → Msg
deriving DecidableEq

/-- Filesystem: association list from (relative) path to file content. -/
abbrev FS := List (Str × Str)

/-- Whole program state: the registry list `this.logs`, the filesystem and
the console output trace. -/
structure St where
  logs : List LogFile
  fs : FS
  out : List Msg
deriving DecidableEq

/-- `process.cwd() + '\\'` (source line 5); only observable inside the
error message emitted when file creation fails. -/
def projectDir : Str := ("C:\\app\\").data

def fsGet (fs : FS) (p : Str) : Option Str :=
  (fs.find? (fun e => e.1 == p)).map (·.2)

def fsSet : FS → Str → Str → FS
  | [], p, c => [(p, c)]
  | e :: es, p, c => if e.1 == p then (p, c) :: es else e :: fsSet es p c

def fsDel : FS → Str → FS
  | [], _ => []
  | e :: es, p => if e.1 == p then es else e :: fsDel es p

/-- `fs.appendFileSync`: creates the file when absent. -/
def appendFS (fs : FS) (p t : Str) : FS :=
  fsSet fs p ((fsGet fs p).getD [] ++ t)

/-- `file.replace(/\//g, '\\')` (source line 120). -/
def jsReplaceSlash (p : Str) : Str :=
  p.map (fun c => if c = '/' then '\\' else c)

/-- The behaviour validation test of source line 133; note the source
compares against the misspelled literal `'ingore'`. -/
def validBehaviour (b : Str) : Bool :=
  b == ("stop").data || b == ("ingore").data || b == ("split").data ||
  b == ("rewrite").data || b == ("continue").data

/-- `addLog(file, alias, maxLength, behaviour)` (source lines 119-145). -/
def addLog (st : St) (file alias_ : Str) (maxLength : Nat) (behaviour : Str) : St :=
  let file := jsReplaceSlash file
  match fsGet st.fs file with
  | none =>
      { st with out := st.out ++
          [Msg.error (("Fama couldn\x27t create a file ").data ++ projectDir ++ file)] }
  | some content =>
      let length := content.length
      if validBehaviour behaviour then
        { st with logs := st.logs ++
            [{ path := file, «alias» := alias_, length := length,
               maxLength := maxLength, behaviour := behaviour }] }
      else
        { st with
            logs := st.logs ++
              [{ path := file, «alias» := alias_, length := length,
                 maxLength := maxLength, behaviour := ("stop").data }],
            out := st.out ++
              [Msg.warn (("\x27").data ++ behaviour ++
                ("\x27 is not valid behaviour type. Defaulting to stop.").data)] }

/-- `this.logs.find(log => log.«alias» === alias)`: first match. -/
def findLog (logs : List LogFile) (a : Str) : Option LogFile :=
  logs.find? (fun l => l.«alias» == a)

/-- Mutation of the first descriptor whose alias matches (the source mutates
the object returned by `find` in place). -/
def updateFirst (logs : List LogFile) (a : Str) (f : LogFile → LogFile) : List LogFile :=
  match logs with
  | [] => []
  | l :: ls => if l.«alias» == a then f l :: ls else l :: updateFirst ls a f

/-- `this.logs.splice(index, 1)` at the first matching index. -/
def removeFirst (logs : List LogFile) (a : Str) : List LogFile :=
  match logs with
  | [] => []
  | l :: ls => if l.«alias» == a then ls else l :: removeFirst ls a

/-- `writeLog(alias, text)` (source lines 152-158). -/
def writeLog (st : St) (a text : Str) : St :=
  match findLog st.logs a with
  | none =>
      { st with out := st.out ++
          [Msg.error (("Couldn\x27t write to a log file with alias ").data ++ a ++
            (", log file was not found").data)] }
  | some log =>
      { st with
          fs := fsSet st.fs log.path text,
          logs := updateFirst st.logs a (fun l => { l with length := text.length }) }

/-- `chunk.toString().split('\n')` of the rewrite data handler. -/
def splitNl : Str → List Str
  | [] => [[]]
  | c :: cs =>
      if c = '\n' then [] :: splitNl cs
      else
        match splitNl cs with
        | t :: ts => (c :: t) :: ts
        | [] => [[c]]

/-- `texts.slice(i + 1).join('\n')`: rejoin segments with newlines. -/
def joinNl : List Str → Str
  | [] => []
  | [t] => t
  | t :: ts => t ++ '\n' :: joinNl ts

/-- The inner `for` loop of the rewrite data handler (source lines 245-251):
drop whole newline-split segments from the front until the deletion budget is
spent, then emit the rest rejoined; emits nothing when the budget is only
exhausted at (or after) the last segment. -/
def dropSegs : Int → List Str → Str
  | _, [] => []
  | toDelete, t :: rest =>
      let td := toDelete - t.length
      if td ≤ 0 ∧ rest ≠ [] then joinNl rest
      else dropSegs td rest

/-- The rewrite data handler folded over the chunk sequence; the `Bool` is
the `pass` flag (source lines 233-255). -/
def rewriteChunksAux : Bool → Int → List Str → Str
  | _, _, [] => []
  | true, td, c :: cs => c ++ rewriteChunksAux true td cs
  | false, td, c :: cs =>
      if td > (c.length : Int) then rewriteChunksAux false (td - c.length) cs
      else dropSegs td (splitNl c) ++ rewriteChunksAux true td cs

/-- Content retained by the rewrite rotation before the final `text` write. -/
def rewriteTrim (toDelete : Int) (chunks : List Str) : Str :=
  rewriteChunksAux false toDelete chunks

/-- `path.lastIndexOf('.')`, as an `Option` instead of `-1`. -/
def lastIndexOfDot : Str → Option Nat
  | [] => none
  | c :: cs =>
      match lastIndexOfDot cs with
      | some i => some (i + 1)
      | none => if c = '.' then some 0 else none

/-- Decimal digits of a natural number (JS number-to-string coercion in
string concatenation). -/
def natDigits (n : Nat) : Str := (Nat.repr n).data

/-- `path.slice(0, i) + fileIndex + path.slice(i)` with
`i = path.lastIndexOf('.')` (source lines 269-270); when there is no dot,
JS `lastIndexOf` yields `-1` and the two slices become `slice(0, -1)` and
`slice(-1)`. -/
def splitPath (p : Str) (idx : Nat) : Str :=
  match lastIndexOfDot p with
  | some i => p.take i ++ natDigits idx ++ p.drop i
  | none => p.take (p.length - 1) ++ natDigits idx ++ p.drop (p.length - 1)

/-- The `overflow(log, text)` dispatcher (source lines 222-281).  `chunks`
is the sequence of data events delivered by the read stream in the
`rewrite` branch (ignored by every other branch).  Note the `rewrite`
branch does not touch `logs`: the source never updates `log.length` there. -/
def overflow (st : St) (log : LogFile) (text : Str) (chunks : List Str) : St :=
  if log.behaviour = ("stop").data then
    { st with out := st.out ++
        [Msg.info (("The ").data ++ log.«alias» ++
          (" log file has reached its maximum size").data)] }
  else if log.behaviour = ("rewrite").data then
    let toDelete : Int := (log.length : Int) + text.length - log.maxLength
    let trimmed := rewriteTrim toDelete chunks
    { st with fs := fsSet (fsDel st.fs (log.path ++ (".temp").data)) log.path (trimmed ++ text) }
  else if log.behaviour = ("split").data then
    let fileIndex := (log.length + text.length) / log.maxLength + 1
    let nextFilePath := splitPath log.path fileIndex
    { st with
        fs := appendFS st.fs nextFilePath text,
        logs := updateFirst st.logs log.«alias»
          (fun l => { l with length := l.length + text.length }) }
  else if log.behaviour = ("continue").data then
    { st with
        fs := appendFS st.fs log.path text,
        logs := updateFirst st.logs log.«alias»
          (fun l => { l with length := l.length + text.length }) }
  else
    st

/-- `appendLog(alias, text)` (source lines 174-183); `chunks` is passed
through to `overflow` for the `rewrite` case. -/
def appendLog (st : St) (a text : Str) (chunks : List Str) : St :=
  match findLog st.logs a with
  | none =>
      { st with out := st.out ++
          [Msg.error (("Couldn\x27t append to a log file with alias ").data ++ a ++
            (", log file was not found").data)] }
  | some log =>
      if log.length + text.length > log.maxLength then overflow st log text chunks
      else
        { st with
            fs := appendFS st.fs log.path text,
            logs := updateFirst st.logs a
              (fun l => { l with length := l.length + text.length }) }

/-- `appendLineLog(alias, text)` (source lines 165-167). -/
def appendLineLog (st : St) (a text : Str) (chunks : List Str) : St :=
  appendLog st a (text ++ ['\n']) chunks

/-- `clearLog(alias)` (source lines 189-195). -/
def clearLog (st : St) (a : Str) : St :=
  match findLog st.logs a with
  | none =>
      { st with out := st.out ++
          [Msg.error (("Couldn\x27t clear a log file with alias ").data ++ a ++
            (", log file was not found").data)] }
  | some log =>
      { st with
          fs := fsSet st.fs log.path [],
          logs := updateFirst st.logs a (fun l => { l with length := 0 }) }

/-- `removeLog(alias)` (source lines 201-214). -/
def removeLog (st : St) (a : Str) : St :=
  match findLog st.logs a with
  | none =>
      { st with out := st.out ++
          [Msg.error (("Couldn\x27t delete a log file with alias ").data ++ a ++
            (", log file was not found").data)] }
  | some log =>
      { st with fs := fsDel st.fs log.path, logs := removeFirst st.logs a }

/-! ## Definitions written from the spec's words, for refinement claims -/

/-- From the spec's words: "Normalizes path separators to the host
platform's separator" — every path separator character (forward or backward
slash) becomes the host separator `sep`. -/
def normalizeSeps (sep : Char) (p : Str) : Str :=
  p.map (fun c => if c = '/' ∨ c = '\\' then sep else c)

/-- From the spec's words: the split sibling filename is "the descriptor's
path with that index inserted immediately before the last dot". -/
def insertBeforeLastDot (p : Str) (n : Nat) : Str :=
  match lastIndexOfDot p with
  | some i => p.take i ++ natDigits n ++ p.drop i
  | none => p

/-- From the spec's words: the rewrite rotation "may only drop whole lines,
never a partial line": the retained content is empty, the whole content, or
a suffix of the content whose dropped complement ends with a newline. -/
def dropsOnlyWholeLinesB (content trimmed : Str) : Bool :=
  trimmed.isEmpty || trimmed == content ||
  ((content.drop (content.length - trimmed.length) == trimmed) &&
   ((content.take (content.length - trimmed.length)).getLast? == some '\n'))

/-- The configuration fields of a descriptor — everything except the mutable
`length`. -/
def skeleton (l : LogFile) : Str × Str × Nat × Str :=
  (l.path, l.«alias», l.maxLength, l.behaviour)

/-- Sum of the segment lengths of a newline split (the units in which the
rewrite loop decrements its deletion budget). -/
def segSum : List Str → Nat
  | [] => 0
  | t :: ts => t.length + segSum ts

/-! ## Helper lemmas -/

theorem fsGet_fsSet_self (fs : FS) (p c : Str) : fsGet (fsSet fs p c) p = some c := by
  induction fs with
  | nil => simp [fsSet, fsGet]
  | cons e es ih =>
      unfold fsSet
      by_cases h : e.1 = p
      · rw [if_pos (by simpa using h)]
        simp [fsGet]
      · rw [if_neg (by simpa using h)]
        unfold fsGet
        rw [List.find?_cons_of_neg _ (by simpa using h)]
        exact ih

theorem findLog_updateFirst (logs : List LogFile) (a : Str) (f : LogFile → LogFile)
    (hf : ∀ l, (f l).«alias» = l.«alias») :
    findLog (updateFirst logs a f) a = (findLog logs a).map f := by
  induction logs with
  | nil => rfl
  | cons l ls ih =>
      unfold updateFirst
      by_cases h : l.«alias» = a
      · rw [if_pos (by simpa using h)]
        unfold findLog
        rw [List.find?_cons_of_pos _ (by simpa [hf] using h),
          List.find?_cons_of_pos _ (by simpa using h)]
        rfl
      · rw [if_neg (by simpa using h)]
        unfold findLog
        rw [List.find?_cons_of_neg _ (by simpa using h),
          List.find?_cons_of_neg _ (by simpa using h)]
        exact ih

theorem findLog_alias {logs : List LogFile} {a : Str} {log : LogFile}
    (h : findLog logs a = some log) : log.«alias» = a := by
  have := List.find?_some h
  simpa using this

theorem updateFirst_length (logs : List LogFile) (a : Str) (f : LogFile → LogFile) :
    (updateFirst logs a f).length = logs.length := by
  induction logs with
  | nil => rfl
  | cons l ls ih =>
      by_cases h : l.«alias» = a <;> simp [updateFirst, h, ih]

theorem updateFirst_skeleton (logs : List LogFile) (a : Str) (f : LogFile → LogFile)
    (hf : ∀ l, skeleton (f l) = skeleton l) :
    (updateFirst logs a f).map skeleton = logs.map skeleton := by
  induction logs with
  | nil => rfl
  | cons l ls ih =>
      by_cases h : l.«alias» = a <;> simp [updateFirst, h, ih, hf]

theorem jsReplaceSlash_eq_normalizeSeps (p : Str) :
    jsReplaceSlash p = normalizeSeps '\\' p := by
  induction p with
  | nil => rfl
  | cons c cs ih =>
      simp only [jsReplaceSlash, normalizeSeps, List.map_cons] at ih ⊢
      have hc : (if c = '/' then '\\' else c) = (if c = '/' ∨ c = '\\' then '\\' else c) := by
        by_cases h1 : c = '/'
        · simp [h1]
        · by_cases h2 : c = '\\' <;> simp [h1, h2]
      rw [hc, ih]

theorem overflow_skeleton (st : St) (log : LogFile) (text : Str) (chunks : List Str) :
    (overflow st log text chunks).logs.map skeleton = st.logs.map skeleton := by
  unfold overflow
  split
  · rfl
  split
  · rfl
  split
  · exact updateFirst_skeleton _ _ _ (fun l => rfl)
  split
  · exact updateFirst_skeleton _ _ _ (fun l => rfl)
  · rfl

theorem appendLog_skeleton (st : St) (a text : Str) (chunks : List Str) :
    (appendLog st a text chunks).logs.map skeleton = st.logs.map skeleton := by
  unfold appendLog
  cases hf : findLog st.logs a with
  | none => rfl
  | some log =>
      dsimp only
      by_cases hc : log.length + text.length > log.maxLength
      · rw [if_pos hc]
        exact overflow_skeleton _ _ _ _
      · rw [if_neg hc]
        exact updateFirst_skeleton _ _ _ (fun l => rfl)

theorem rewriteChunksAux_nil (b : Bool) (td : Int) : rewriteChunksAux b td [] = [] := by
  cases b <;> rfl

theorem rewriteChunksAux_false_cons (td : Int) (c : Str) (cs : List Str) :
    rewriteChunksAux false td (c :: cs) =
      if td > (c.length : Int) then rewriteChunksAux false (td - c.length) cs
      else dropSegs td (splitNl c) ++ rewriteChunksAux true td cs := rfl

theorem splitNl_ne_nil (s : Str) : splitNl s ≠ [] := by
  cases s with
  | nil => simp [splitNl]
  | cons c cs =>
      unfold splitNl
      by_cases h : c = '\n'
      · simp [h]
      · rw [if_neg h]
        cases hm : splitNl cs with
        | nil => simp
        | cons t ts => simp

theorem joinNl_cons (t : Str) (ts : List Str) (h : ts ≠ []) :
    joinNl (t :: ts) = t ++ '\n' :: joinNl ts := by
  cases ts with
  | nil => exact absurd rfl h
  | cons t' ts' => rfl

theorem joinNl_splitNl (s : Str) : joinNl (splitNl s) = s := by
  induction s with
  | nil => rfl
  | cons c cs ih =>
      unfold splitNl
      by_cases h : c = '\n'
      · rw [if_pos h, joinNl_cons _ _ (splitNl_ne_nil cs), ih, h]
        rfl
      · rw [if_neg h]
        cases hm : splitNl cs with
        | nil => exact absurd hm (splitNl_ne_nil cs)
        | cons t ts =>
            rw [hm] at ih
            cases ts with
            | nil =>
                show c :: t = c :: cs
                rw [show t = cs from ih]
            | cons t' ts' =>
                show (c :: t) ++ '\n' :: joinNl (t' :: ts') = c :: cs
                rw [List.cons_append]
                rw [show t ++ '\n' :: joinNl (t' :: ts') = cs from ih]

theorem joinNl_take_drop (segs : List Str) (k : Nat) (hk0 : 0 < k) (hklt : k < segs.length) :
    joinNl segs = joinNl (segs.take k) ++ '\n' :: joinNl (segs.drop k) := by
  induction segs generalizing k with
  | nil => simp at hklt
  | cons t rest ih =>
      cases k with
      | zero => omega
      | succ k' =>
          rcases Nat.eq_zero_or_pos k' with h0 | hpos
          · subst h0
            have hrest : rest ≠ [] := by
              intro he
              subst he
              simp at hklt
            rw [joinNl_cons t rest hrest]
            simp [joinNl]
          · have hlt' : k' < rest.length := by
              simpa using Nat.lt_of_succ_lt_succ hklt
            have hrest : rest ≠ [] := by
              intro he
              subst he
              simp at hlt'
            rw [joinNl_cons t rest hrest, ih k' hpos hlt']
            have htake : (t :: rest).take (k' + 1) = t :: rest.take k' := rfl
            have hdrop : (t :: rest).drop (k' + 1) = rest.drop k' := rfl
            rw [htake, hdrop]
            have htkne : rest.take k' ≠ [] := by
              intro he
              have hl := congrArg List.length he
              rw [List.length_take] at hl
              simp only [List.length_nil] at hl
              omega
            rw [joinNl_cons t (rest.take k') htkne]
            simp [List.cons_append, List.append_assoc]

theorem joinNl_length (segs : List Str) (h : segs ≠ []) :
    (joinNl segs).length + 1 = segSum segs + segs.length := by
  induction segs with
  | nil => exact absurd rfl h
  | cons t ts ih =>
      cases ts with
      | nil => simp [joinNl, segSum]
      | cons t' ts' =>
          rw [joinNl_cons t _ (by simp)]
          have hih := ih (by simp)
          simp only [segSum, List.length_append, List.length_cons] at *
          omega

theorem dropSegs_spec (segs : List Str) (td : Int) :
    dropSegs td segs = [] ∨
    ∃ k, 0 < k ∧ k < segs.length ∧ dropSegs td segs = joinNl (segs.drop k) ∧
      td ≤ (segSum (segs.take k) : Int) := by
  induction segs generalizing td with
  | nil => exact Or.inl rfl
  | cons t rest ih =>
      unfold dropSegs
      dsimp only
      by_cases hc : td - t.length ≤ 0 ∧ rest ≠ []
      · rw [if_pos hc]
        refine Or.inr ⟨1, Nat.one_pos, ?_, rfl, ?_⟩
        · cases rest with
          | nil => exact absurd rfl hc.2
          | cons _ _ => simp
        · have h1 := hc.1
          simp only [List.take_succ_cons, List.take_zero, segSum]
          push_cast
          omega
      · rw [if_neg hc]
        rcases ih (td - t.length) with h | ⟨k, hk0, hklt, heq, hsum⟩
        · exact Or.inl h
        · refine Or.inr ⟨k + 1, Nat.succ_pos k, by simpa using Nat.succ_lt_succ hklt, ?_, ?_⟩
          · simpa using heq
          · simp only [List.take_succ_cons, segSum]
            push_cast at hsum ⊢
            omega

theorem trimmed_tail_shape (td : Int) (pre r : Str) (hp : td ≤ (pre.length : Int)) :
    dropsOnlyWholeLinesB ((pre ++ ['\n']) ++ r) r = true ∧
    r <:+ (pre ++ ['\n']) ++ r ∧
    ((r.length : Int) + td ≤ ((((pre ++ ['\n']) ++ r).length : Int))) := by
  refine ⟨?_, ⟨pre ++ ['\n'], rfl⟩, ?_⟩
  · unfold dropsOnlyWholeLinesB
    have hlen : ((pre ++ ['\n']) ++ r).length - r.length = (pre ++ ['\n']).length := by
      simp only [List.length_append]
      omega
    rw [hlen, List.drop_left, List.take_left]
    simp
  · simp only [List.length_append, List.length_cons, List.length_nil]
    push_cast
    omega

theorem rewriteTrim_single (c : Str) (td : Int) :
    dropsOnlyWholeLinesB c (rewriteTrim td [c]) = true ∧
    rewriteTrim td [c] <:+ c ∧
    (rewriteTrim td [c] = [] ∨ ((rewriteTrim td [c]).length : Int) + td ≤ (c.length : Int)) := by
  unfold rewriteTrim
  rw [rewriteChunksAux_false_cons]
  by_cases h : td > (c.length : Int)
  · rw [if_pos h, rewriteChunksAux_nil]
    exact ⟨by simp [dropsOnlyWholeLinesB], List.nil_suffix, Or.inl rfl⟩
  · rw [if_neg h, rewriteChunksAux_nil, List.append_nil]
    rcases dropSegs_spec (splitNl c) td with hnil | ⟨k, hk0, hklt, heq, hsum⟩
    · rw [hnil]
      exact ⟨by simp [dropsOnlyWholeLinesB], List.nil_suffix, Or.inl rfl⟩
    · rw [heq]
      have htkne : (splitNl c).take k ≠ [] := by
        intro he
        have hl := congrArg List.length he
        rw [List.length_take] at hl
        simp only [List.length_nil] at hl
        omega
      have hpre := joinNl_length ((splitNl c).take k) htkne
      have htklen : ((splitNl c).take k).length = k := by
        rw [List.length_take]
        omega
      rw [htklen] at hpre
      have htd_pre : td ≤ ((joinNl ((splitNl c).take k)).length : Int) := by
        omega
      have hq : c = (joinNl ((splitNl c).take k) ++ ['\n']) ++ joinNl ((splitNl c).drop k) := by
        conv_lhs => rw [← joinNl_splitNl c]
        rw [joinNl_take_drop (splitNl c) k hk0 hklt]
        simp
      obtain ⟨h1, h2, h3⟩ := trimmed_tail_shape td (joinNl ((splitNl c).take k))
        (joinNl ((splitNl c).drop k)) htd_pre
      rw [← hq] at h1 h2 h3
      exact ⟨h1, h2, Or.inr h3⟩

theorem lastIndexOfDot_isSome {p : Str} (h : '.' ∈ p) : (lastIndexOfDot p).isSome := by
  induction p with
  | nil => cases h
  | cons c cs ih =>
      unfold lastIndexOfDot
      cases hm : lastIndexOfDot cs with
      | some i => rfl
      | none =>
          rcases List.mem_cons.mp h with h1 | h2
          · simp [← h1]
          · have hs := ih h2
            rw [hm] at hs
            cases hs

theorem splitPath_eq_insert {p : Str} (h : '.' ∈ p) (n : Nat) :
    splitPath p n = insertBeforeLastDot p n := by
  unfold splitPath insertBeforeLastDot
  cases hm : lastIndexOfDot p with
  | some i => rfl
  | none =>
      have hs := lastIndexOfDot_isSome h
      rw [hm] at hs
      cases hs

/-! ## Claim theorems -/

/-- C1: the claim says that after an overflowing `appendLog` on a `rewrite`
descriptor completes its rotation, the tracked `length` equals the actual
byte size of the final file content.  The code never updates `log.length` in
the rewrite branch: here the rotation leaves a 4-byte file while the tracked
length stays at its pre-append value 6. -/
theorem c1_rewrite_length_not_updated :
    (fsGet (appendLog
        ⟨[⟨("log.txt").data, ("x").data, 6, 7, ("rewrite").data⟩],
         [(("log.txt").data, ("ab\ncd\n").data)], []⟩
        ("x").data ("wxyz").data [("ab\ncd\n").data]).fs
      ("log.txt").data).map List.length = some 4 ∧
    (appendLog
        ⟨[⟨("log.txt").data, ("x").data, 6, 7, ("rewrite").data⟩],
         [(("log.txt").data, ("ab\ncd\n").data)], []⟩
        ("x").data ("wxyz").data [("ab\ncd\n").data]).logs.map LogFile.length = [6] := by
  decide

/-- C3: the claim says every behaviour among {stop, ignore, split, rewrite,
continue} is stored unchanged without a warning, and every other value warns
and stores stop.  The validation of source line 133 compares against the
misspelled literal `'ingore'`: registering with `'ignore'` warns and stores
`'stop'`, while registering with `'ingore'` is accepted silently and stored
verbatim — both halves of the claim fail. -/
theorem c3_ignore_misvalidated :
    ((addLog ⟨[], [(("log.txt").data, [])], []⟩
        ("log.txt").data ("x").data 10 ("ignore").data).logs.map LogFile.behaviour
        = [("stop").data] ∧
     (addLog ⟨[], [(("log.txt").data, [])], []⟩
        ("log.txt").data ("x").data 10 ("ignore").data).out
        = [Msg.warn (("\x27ignore\x27 is not valid behaviour type. Defaulting to stop.").data)]) ∧
    ((addLog ⟨[], [(("log.txt").data, [])], []⟩
        ("log.txt").data ("x").data 10 ("ingore").data).logs.map LogFile.behaviour
        = [("ingore").data] ∧
     (addLog ⟨[], [(("log.txt").data, [])], []⟩
        ("log.txt").data ("x").data 10 ("ingore").data).out = []) := by
  decide

/-- C4: the claim says a missing target file is created empty with tracked
length 0.  The source calls `fs.writeFileSync(file)` without the mandatory
`data` argument, which throws (Node >= 14), so the `catch` reports an error
and nothing is created or registered: on an empty filesystem, `addLog`
leaves the filesystem empty, registers no descriptor, and emits exactly the
creation error. -/
theorem c4_missing_file_registration_aborts :
    (addLog ⟨[], [], []⟩ ("log.txt").data ("x").data 5000 ("stop").data).logs = [] ∧
    (addLog ⟨[], [], []⟩ ("log.txt").data ("x").data 5000 ("stop").data).fs = [] ∧
    (addLog ⟨[], [], []⟩ ("log.txt").data ("x").data 5000 ("stop").data).out
      = [Msg.error (("Fama couldn\x27t create a file C:\\app\\log.txt").data)] := by
  decide

/-- C8: for an alias not present in the registry, each of `writeLog`,
`appendLog`, `clearLog` and `removeLog` emits exactly one error report and
leaves the registry and the filesystem untouched (each function is total in
the model, so the call returns normally). -/
theorem c8_unknown_alias_noop (st : St) (a text : Str) (chunks : List Str)
    (h : findLog st.logs a = none) :
    writeLog st a text = { st with out := st.out ++
      [Msg.error (("Couldn\x27t write to a log file with alias ").data ++ a ++
        (", log file was not found").data)] } ∧
    appendLog st a text chunks = { st with out := st.out ++
      [Msg.error (("Couldn\x27t append to a log file with alias ").data ++ a ++
        (", log file was not found").data)] } ∧
    clearLog st a = { st with out := st.out ++
      [Msg.error (("Couldn\x27t clear a log file with alias ").data ++ a ++
        (", log file was not found").data)] } ∧
    removeLog st a = { st with out := st.out ++
      [Msg.error (("Couldn\x27t delete a log file with alias ").data ++ a ++
        (", log file was not found").data)] } := by
  unfold writeLog appendLog clearLog removeLog
  rw [h]
  exact ⟨rfl, rfl, rfl, rfl⟩

/-- Witness for C8 at a concrete state with an empty registry. -/
theorem c8_unknown_alias_noop_witness :
    writeLog ⟨[], [], []⟩ ("x").data ("hi").data = { St.mk [] [] [] with out := [] ++
      [Msg.error (("Couldn\x27t write to a log file with alias ").data ++ ("x").data ++
        (", log file was not found").data)] } ∧
    appendLog ⟨[], [], []⟩ ("x").data ("hi").data [] = { St.mk [] [] [] with out := [] ++
      [Msg.error (("Couldn\x27t append to a log file with alias ").data ++ ("x").data ++
        (", log file was not found").data)] } ∧
    clearLog ⟨[], [], []⟩ ("x").data = { St.mk [] [] [] with out := [] ++
      [Msg.error (("Couldn\x27t clear a log file with alias ").data ++ ("x").data ++
        (", log file was not found").data)] } ∧
    removeLog ⟨[], [], []⟩ ("x").data = { St.mk [] [] [] with out := [] ++
      [Msg.error (("Couldn\x27t delete a log file with alias ").data ++ ("x").data ++
        (", log file was not found").data)] } :=
  c8_unknown_alias_noop ⟨[], [], []⟩ ("x").data ("hi").data [] (by decide)

/-- C9, counterexample: the claim says the stored path is the given path
with separators normalized to the host platform's separator.  On a platform
whose separator is `/` the spec-side normalization leaves `a/b.txt`
unchanged, but the code stores `a\b.txt`. -/
theorem c9_not_host_separator :
    (addLog ⟨[], [(("a\\b.txt").data, [])], []⟩
        ("a/b.txt").data ("x").data 10 ("stop").data).logs.map LogFile.path
      = [("a\\b.txt").data] ∧
    normalizeSeps '/' ("a/b.txt").data = ("a/b.txt").data ∧
    ("a\\b.txt").data ≠ ("a/b.txt").data := by
  decide

/-- C9, amended: whenever registration succeeds (the target file exists
under the backslash-normalized name), the stored path is the given path with
every `/` replaced by `\` — i.e. normalized to the Windows separator
regardless of host platform. -/
theorem c9_amended (st : St) (file a b : Str) (m : Nat) (content : Str)
    (h : fsGet st.fs (jsReplaceSlash file) = some content) :
    (addLog st file a m b).logs.map LogFile.path =
      st.logs.map LogFile.path ++ [normalizeSeps '\\' file] := by
  unfold addLog
  simp only [h]
  by_cases hv : validBehaviour b = true <;>
    simp [hv, jsReplaceSlash_eq_normalizeSeps]

/-- Witness for C9 (amended) at a concrete registration. -/
theorem c9_amended_witness :
    (addLog ⟨[], [(("a\\b.txt").data, [])], []⟩
        ("a/b.txt").data ("x").data 10 ("stop").data).logs.map LogFile.path =
      ([] : List LogFile).map LogFile.path ++ [normalizeSeps '\\' (("a/b.txt").data)] :=
  c9_amended ⟨[], [(("a\\b.txt").data, [])], []⟩ ("a/b.txt").data ("x").data
    ("stop").data 10 (("").data) (by decide)

/-- C10: `writeLog`, `appendLog` (hence every overflow branch),
`appendLineLog`, `clearLog` and `overflow` itself preserve every
descriptor's `path`, `alias`, `maxLength` and `behaviour` and the registry's
membership (same descriptors in the same order; only `length` may change). -/
theorem c10_frame (st : St) (a text : Str) (chunks : List Str) (log : LogFile) :
    (writeLog st a text).logs.map skeleton = st.logs.map skeleton ∧
    (appendLog st a text chunks).logs.map skeleton = st.logs.map skeleton ∧
    (appendLineLog st a text chunks).logs.map skeleton = st.logs.map skeleton ∧
    (clearLog st a).logs.map skeleton = st.logs.map skeleton ∧
    (overflow st log text chunks).logs.map skeleton = st.logs.map skeleton := by
  refine ⟨?_, appendLog_skeleton st a text chunks, appendLog_skeleton st a _ chunks,
    ?_, overflow_skeleton st log text chunks⟩
  · unfold writeLog
    cases hf : findLog st.logs a with
    | none => rfl
    | some l => exact updateFirst_skeleton _ _ _ (fun l => rfl)
  · unfold clearLog
    cases hf : findLog st.logs a with
    | none => rfl
    | some l => exact updateFirst_skeleton _ _ _ (fun l => rfl)

/-- C6: for a descriptor with behaviour `stop` or `ignore`, an overflowing
`appendLog` writes nothing: the filesystem and the registry (hence the
descriptor's `length`) are unchanged; in the `stop` case exactly one
informational message is reported, in the `ignore` case nothing is emitted
(the `ignore` behaviour matches no `switch` case of `overflow` and falls
through). -/
theorem c6_stop_ignore_overflow (st : St) (a text : Str) (chunks : List Str) (log : LogFile)
    (hfind : findLog st.logs a = some log)
    (hover : log.length + text.length > log.maxLength)
    (hb : log.behaviour = ("stop").data ∨ log.behaviour = ("ignore").data) :
    (appendLog st a text chunks).fs = st.fs ∧
    (appendLog st a text chunks).logs = st.logs ∧
    (log.behaviour = ("stop").data →
      (appendLog st a text chunks).out = st.out ++
        [Msg.info (("The ").data ++ log.«alias» ++
          (" log file has reached its maximum size").data)]) ∧
    (log.behaviour = ("ignore").data → (appendLog st a text chunks).out = st.out) := by
  unfold appendLog
  rw [hfind]
  dsimp only
  rw [if_pos hover]
  unfold overflow
  rcases hb with hb | hb <;> rw [hb]
  · rw [if_pos rfl]
    exact ⟨rfl, rfl, fun _ => rfl, fun h => absurd h (by decide)⟩
  · rw [if_neg (by decide), if_neg (by decide), if_neg (by decide), if_neg (by decide)]
    exact ⟨rfl, rfl, fun h => absurd h (by decide), fun _ => rfl⟩

/-- Witness for C6 at a concrete overflowing append on a `stop` descriptor. -/
theorem c6_stop_ignore_overflow_witness :
    (appendLog ⟨[⟨("p").data, ("x").data, 3, 3, ("stop").data⟩],
        [(("p").data, ("abc").data)], []⟩ ("x").data ("zz").data []).fs
      = (⟨[⟨("p").data, ("x").data, 3, 3, ("stop").data⟩],
        [(("p").data, ("abc").data)], []⟩ : St).fs ∧
    (appendLog ⟨[⟨("p").data, ("x").data, 3, 3, ("stop").data⟩],
        [(("p").data, ("abc").data)], []⟩ ("x").data ("zz").data []).logs
      = (⟨[⟨("p").data, ("x").data, 3, 3, ("stop").data⟩],
        [(("p").data, ("abc").data)], []⟩ : St).logs ∧
    ((⟨("p").data, ("x").data, 3, 3, ("stop").data⟩ : LogFile).behaviour = ("stop").data →
      (appendLog ⟨[⟨("p").data, ("x").data, 3, 3, ("stop").data⟩],
          [(("p").data, ("abc").data)], []⟩ ("x").data ("zz").data []).out
        = (⟨[⟨("p").data, ("x").data, 3, 3, ("stop").data⟩],
            [(("p").data, ("abc").data)], []⟩ : St).out ++
          [Msg.info (("The ").data ++ (⟨("p").data, ("x").data, 3, 3, ("stop").data⟩ : LogFile).«alias» ++
            (" log file has reached its maximum size").data)]) ∧
    ((⟨("p").data, ("x").data, 3, 3, ("stop").data⟩ : LogFile).behaviour = ("ignore").data →
      (appendLog ⟨[⟨("p").data, ("x").data, 3, 3, ("stop").data⟩],
          [(("p").data, ("abc").data)], []⟩ ("x").data ("zz").data []).out
        = (⟨[⟨("p").data, ("x").data, 3, 3, ("stop").data⟩],
            [(("p").data, ("abc").data)], []⟩ : St).out) :=
  c6_stop_ignore_overflow
    ⟨[⟨("p").data, ("x").data, 3, 3, ("stop").data⟩], [(("p").data, ("abc").data)], []⟩
    ("x").data ("zz").data [] ⟨("p").data, ("x").data, 3, 3, ("stop").data⟩
    (by decide) (by decide) (Or.inl rfl)

/-- C7: a non-overflowing `appendLog` appends `text` to the backing file,
leaving the prior content in place, and the descriptor's `length` becomes
the prior length plus the appended text's length. -/
theorem c7_append_within_limit (st : St) (a text : Str) (chunks : List Str) (log : LogFile)
    (hfind : findLog st.logs a = some log)
    (hfit : log.length + text.length ≤ log.maxLength) :
    fsGet (appendLog st a text chunks).fs log.path
      = some ((fsGet st.fs log.path).getD [] ++ text) ∧
    findLog (appendLog st a text chunks).logs a
      = some { log with length := log.length + text.length } := by
  unfold appendLog
  rw [hfind]
  dsimp only
  rw [if_neg (by omega)]
  refine ⟨fsGet_fsSet_self _ _ _, ?_⟩
  dsimp only
  rw [findLog_updateFirst st.logs a
    (fun l => { l with length := l.length + text.length }) (fun l => rfl), hfind]
  rfl

/-- Witness for C7 at a concrete in-limit append. -/
theorem c7_append_within_limit_witness :
    fsGet (appendLog ⟨[⟨("p").data, ("x").data, 2, 10, ("stop").data⟩],
        [(("p").data, ("ab").data)], []⟩ ("x").data ("cd").data []).fs (("p").data)
      = some ((fsGet [(("p").data, ("ab").data)] (("p").data)).getD [] ++ ("cd").data) ∧
    findLog (appendLog ⟨[⟨("p").data, ("x").data, 2, 10, ("stop").data⟩],
        [(("p").data, ("ab").data)], []⟩ ("x").data ("cd").data []).logs (("x").data)
      = some { (⟨("p").data, ("x").data, 2, 10, ("stop").data⟩ : LogFile) with
          length := 2 + (("cd").data).length } :=
  c7_append_within_limit
    ⟨[⟨("p").data, ("x").data, 2, 10, ("stop").data⟩], [(("p").data, ("ab").data)], []⟩
    ("x").data ("cd").data [] ⟨("p").data, ("x").data, 2, 10, ("stop").data⟩
    (by decide) (by decide)

/-- C5: on an overflowing append with behaviour `split`, the overflow index
is `(length + len(text)) / maxLength + 1` (floor division), the sibling
filename is the path with that index inserted immediately before the last
dot (for paths containing a dot), `text` is appended to the sibling path
(created if absent), the original descriptor's `length` grows by
`len(text)`, and no descriptor is added to the registry. -/
theorem c5_split_overflow (st : St) (a text : Str) (chunks : List Str) (log : LogFile)
    (hfind : findLog st.logs a = some log)
    (hb : log.behaviour = ("split").data)
    (hover : log.length + text.length > log.maxLength)
    (hdot : '.' ∈ log.path) :
    splitPath log.path ((log.length + text.length) / log.maxLength + 1)
      = insertBeforeLastDot log.path ((log.length + text.length) / log.maxLength + 1) ∧
    fsGet (appendLog st a text chunks).fs
        (splitPath log.path ((log.length + text.length) / log.maxLength + 1))
      = some ((fsGet st.fs
          (splitPath log.path ((log.length + text.length) / log.maxLength + 1))).getD []
            ++ text) ∧
    findLog (appendLog st a text chunks).logs a
      = some { log with length := log.length + text.length } ∧
    (appendLog st a text chunks).logs.length = st.logs.length := by
  unfold appendLog
  rw [hfind]
  dsimp only
  rw [if_pos hover]
  unfold overflow
  have hstop : ¬ log.behaviour = ("stop").data := by rw [hb]; decide
  have hrew : ¬ log.behaviour = ("rewrite").data := by rw [hb]; decide
  rw [if_neg hstop, if_neg hrew, if_pos hb]
  refine ⟨splitPath_eq_insert hdot _, fsGet_fsSet_self _ _ _, ?_, ?_⟩
  · dsimp only
    conv_lhs => rw [findLog_alias hfind]
    rw [findLog_updateFirst st.logs a
      (fun l => { l with length := l.length + text.length }) (fun l => rfl), hfind]
    rfl
  · dsimp only
    exact updateFirst_length _ _ _

/-- Witness for C5 at a concrete overflowing split append. -/
theorem c5_split_overflow_witness :
    splitPath (("log.txt").data) ((8 + (("abcd").data).length) / 10 + 1)
      = insertBeforeLastDot (("log.txt").data) ((8 + (("abcd").data).length) / 10 + 1) ∧
    fsGet (appendLog ⟨[⟨("log.txt").data, ("x").data, 8, 10, ("split").data⟩],
        [(("log.txt").data, ("abcdefgh").data)], []⟩ ("x").data ("abcd").data []).fs
        (splitPath (("log.txt").data) ((8 + (("abcd").data).length) / 10 + 1))
      = some ((fsGet [(("log.txt").data, ("abcdefgh").data)]
          (splitPath (("log.txt").data) ((8 + (("abcd").data).length) / 10 + 1))).getD []
            ++ ("abcd").data) ∧
    findLog (appendLog ⟨[⟨("log.txt").data, ("x").data, 8, 10, ("split").data⟩],
        [(("log.txt").data, ("abcdefgh").data)], []⟩ ("x").data ("abcd").data []).logs
        (("x").data)
      = some { (⟨("log.txt").data, ("x").data, 8, 10, ("split").data⟩ : LogFile) with
          length := 8 + (("abcd").data).length } ∧
    (appendLog ⟨[⟨("log.txt").data, ("x").data, 8, 10, ("split").data⟩],
        [(("log.txt").data, ("abcdefgh").data)], []⟩ ("x").data ("abcd").data []).logs.length
      = ([⟨("log.txt").data, ("x").data, 8, 10, ("split").data⟩] : List LogFile).length :=
  c5_split_overflow
    ⟨[⟨("log.txt").data, ("x").data, 8, 10, ("split").data⟩],
      [(("log.txt").data, ("abcdefgh").data)], []⟩
    ("x").data ("abcd").data [] ⟨("log.txt").data, ("x").data, 8, 10, ("split").data⟩
    (by decide) rfl (by decide) (by decide)

/-- C2, counterexample: with file content "abc\nd" delivered by the read
stream in two chunks "ab" and "c\nd" (deletion budget 1), the data handler
drops the whole first chunk — it contains no newline, so the break condition
`i + 1 < texts.length` never fires — and then passes the second chunk
through verbatim.  The retained content "c\nd" starts with the tail of the
line "abc": a partial line was dropped and a partial line retained, refuting
the claim's "drops only whole newline-delimited lines" part. -/
theorem c2_partial_line_counterexample :
    ([("ab").data, ("c\nd").data] : List Str).flatten = ("abc\nd").data ∧
    fsGet (appendLog
        ⟨[⟨("log.txt").data, ("x").data, 5, 5, ("rewrite").data⟩],
         [(("log.txt").data, ("abc\nd").data)], []⟩
        ("x").data ("!").data [("ab").data, ("c\nd").data]).fs ("log.txt").data
      = some (("c\nd!").data) ∧
    dropsOnlyWholeLinesB ("abc\nd").data
      (rewriteTrim 1 [("ab").data, ("c\nd").data]) = false := by
  decide

/-- C2, amended: provided the read stream delivers the file content as a
single chunk, the rewrite rotation drops only whole newline-delimited lines
from the front (the trimmed content is a suffix of the old content whose
dropped complement ends at a newline, or is empty), the final file content
is exactly that trimmed suffix followed verbatim by the appended `text`, and
the final byte length is at most `maxLength` modulo the final append (at
most `max maxLength (len text)`).  With multi-chunk delivery a chunk
boundary inside a line can drop or retain a partial line (see the
counterexample). -/
theorem c2_rewrite_single_chunk (st : St) (a text content : Str) (log : LogFile)
    (hfind : findLog st.logs a = some log)
    (hb : log.behaviour = ("rewrite").data)
    (hc : fsGet st.fs log.path = some content)
    (hlen : log.length = content.length)
    (hover : log.length + text.length > log.maxLength) :
    fsGet (appendLog st a text [content]).fs log.path
      = some (rewriteTrim ((log.length : Int) + text.length - log.maxLength) [content]
          ++ text) ∧
    dropsOnlyWholeLinesB content
      (rewriteTrim ((log.length : Int) + text.length - log.maxLength) [content]) = true ∧
    rewriteTrim ((log.length : Int) + text.length - log.maxLength) [content] <:+ content ∧
    (rewriteTrim ((log.length : Int) + text.length - log.maxLength) [content]).length
      + text.length ≤ max log.maxLength text.length := by
  obtain ⟨h1, h2, h3⟩ :=
    rewriteTrim_single content ((log.length : Int) + text.length - log.maxLength)
  refine ⟨?_, h1, h2, ?_⟩
  · unfold appendLog
    rw [hfind]
    dsimp only
    rw [if_pos hover]
    unfold overflow
    have hstop : ¬ log.behaviour = ("stop").data := by
      rw [hb]
      decide
    rw [if_neg hstop, if_pos hb]
    dsimp only
    exact fsGet_fsSet_self _ _ _
  · rcases h3 with h3 | h3
    · rw [h3]
      simp only [List.length_nil, Nat.zero_add]
      omega
    · omega

/-- Witness for C2 (amended) at a concrete single-chunk rotation. -/
theorem c2_rewrite_single_chunk_witness :
    fsGet (appendLog ⟨[⟨("log.txt").data, ("x").data, 6, 7, ("rewrite").data⟩],
        [(("log.txt").data, ("ab\ncd\n").data)], []⟩
        ("x").data ("zz").data [("ab\ncd\n").data]).fs (("log.txt").data)
      = some (rewriteTrim (((6 : Nat) : Int) + (("zz").data).length - ((7 : Nat) : Int))
          [("ab\ncd\n").data] ++ ("zz").data) ∧
    dropsOnlyWholeLinesB ("ab\ncd\n").data
      (rewriteTrim (((6 : Nat) : Int) + (("zz").data).length - ((7 : Nat) : Int))
        [("ab\ncd\n").data]) = true ∧
    rewriteTrim (((6 : Nat) : Int) + (("zz").data).length - ((7 : Nat) : Int))
        [("ab\ncd\n").data]
      <:+ ("ab\ncd\n").data ∧
    (rewriteTrim (((6 : Nat) : Int) + (("zz").data).length - ((7 : Nat) : Int))
        [("ab\ncd\n").data]).length
      + (("zz").data).length ≤ max 7 (("zz").data).length :=
  c2_rewrite_single_chunk
    ⟨[⟨("log.txt").data, ("x").data, 6, 7, ("rewrite").data⟩],
      [(("log.txt").data, ("ab\ncd\n").data)], []⟩
    ("x").data ("zz").data ("ab\ncd\n").data
    ⟨("log.txt").data, ("x").data, 6, 7, ("rewrite").data⟩
    (by decide) rfl (by decide) (by decide) (by decide)

end Fama
